import Mathlib

/-!
Verification of the OCI artifact mapping layer of `ocifactory`
(`pkg/oci/registry.go`), against a shallow embedding of its data model and
operations.

Modelling conventions:
- Byte contents and digests are `List Nat`.  The sha-256 digest function is an
  explicit parameter `hash : Bytes → Digest`; where a property needs
  collision-freedom it carries a `Function.Injective hash` hypothesis.  The
  empty Go string digest of a zero-valued descriptor is modelled as `[]`.
- Go maps (string-keyed annotation maps, the backend's tag/manifest/blob
  stores) are association lists with first-match lookup; a `nil` Go map is
  `Option.none`, and looking a missing key up in a non-nil map yields `""`
  exactly as in Go.
- The backend repository (oras remote / in-memory store) is a value
  `Backend` holding the tag map (tag → manifest descriptor, as stored by
  `Tag` and returned by `Resolve`), the manifest store (digest → manifest)
  and the blob store (digest → bytes).  `oras.PackManifest` is modelled by
  `packManifest` over an explicit manifest encoding `menc`; `oras.Copy`
  atomically stores the blob and manifest and tags the manifest.
- Fallible operations return `Except RegErr` (with the backend state threaded
  for the write path); `RegErr.notFound` corresponds to errors matching
  `errdef.ErrNotFound`.
-/

deriving instance DecidableEq for Except

namespace Ocifactory

/-- Byte strings (file contents, encoded manifests). -/
abbrev Bytes := List Nat

/-- Content digests; `[]` models the empty Go string digest. -/
abbrev Digest := List Nat

/-- `FileNameAnnotation = "ocifactory.file.title"` of `pkg/oci/registry.go`. -/
def fileTitleKey : String := "ocifactory.file.title"

/-- `ocispec.AnnotationTitle = "org.opencontainers.image.title"`. -/
def imageTitleKey : String := "org.opencontainers.image.title"

/-- `DefaultArtifactType` of `pkg/oci/registry.go`. -/
def defaultArtifactType : String := "application/vnd.ocifactory.generic"

/-- Media type of a packed OCI image manifest. -/
def manifestMediaType : String := "application/vnd.oci.image.manifest.v1+json"

/-- First-match association-list lookup (Go map read). -/
def alookup {α β : Type} [DecidableEq α] : List (α × β) → α → Option β
  | [], _ => none
  | (k, v) :: rest, a => if k = a then some v else alookup rest a

/-- Association-list insert/replace (Go map write). -/
def ainsert {α β : Type} [DecidableEq α] : List (α × β) → α → β → List (α × β)
  | [], k, v => [(k, v)]
  | (k', v') :: rest, k, v =>
    if k' = k then (k, v) :: rest else (k', v') :: ainsert rest k v

/-- `ocispec.Descriptor`: media type, digest, size and the (possibly nil)
annotations map. -/
structure Descr where
  mediaType : String
  digest : Digest
  size : Nat
  annotations : Option (List (String × String))
deriving DecidableEq

/-- The zero `ocispec.Descriptor` (what a failed `Resolve` leaves behind). -/
def emptyDescr : Descr := ⟨"", [], 0, none⟩

/-- Go's read of key `k` from a possibly nil annotations map: a nil map and a
map missing the key both yield `""`. -/
def annGet : Option (List (String × String)) → String → String
  | none, _ => ""
  | some m, k => (alookup m k).getD ""

/-- The `ocifactory.file.title` value of a layer descriptor, as Go reads it. -/
def annValue (d : Descr) : String := annGet d.annotations fileTitleKey

/-- `RepoFile` of `pkg/oci/registry.go`.  The fields `owningRepo`, `owningTag`,
`name` and `mediaType` are from the source.  The field `digest` is
modelled from the spec: the revision of `pkg/oci` adding the caller-supplied
digest assertion (`RepoFile.Digest`, spec §3 and §4.2) is missing from the
sources, while its tests and callers (`registry_test.go`,
`pkg/handler/python`) use it; `none` models the empty Go string. -/
structure RepoFile where
  owningRepo : String
  owningTag : String
  name : String
  mediaType : String
  digest : Option Digest
deriving DecidableEq

/-- `FileDescriptor` of `pkg/oci/registry.go`: owning manifest descriptor plus
file layer descriptor. -/
structure FileDescriptor where
  manifest : Descr
  file : Descr
deriving DecidableEq

/-- An OCI image manifest as the layer engine sees it: artifact type plus the
ordered layer list. -/
structure Manifest where
  artifactType : String
  layers : List Descr
deriving DecidableEq

/-- The backend repository state (remote OCI repo or in-memory stub): tag map
(as written by `Tag`, read by `Resolve`), manifest store, blob store. -/
structure Backend where
  tags : List (String × Descr)
  manifests : List (Digest × Manifest)
  blobs : List (Digest × Bytes)
deriving DecidableEq

/-- Error conditions distinguished by the model.  `notFound` is an error chain
matching `errdef.ErrNotFound`. -/
inductive RegErr
  | notFound
  | digestMismatch
  | invalidArgument
  | ioErr
deriving DecidableEq

/-- `filepath.Ext`, scanning backwards over the reversed characters:
the suffix from the final dot, `""` when a separator or the start comes
first.  First argument: remaining reversed characters; second: the characters
already scanned (the candidate extension tail, in order). -/
def extGo : List Char → List Char → String
  | [], _ => ""
  | c :: rest, acc =>
    if c = '/' then ""
    else if c = '.' then String.mk ('.' :: acc)
    else extGo rest (c :: acc)

/-- `filepath.Ext` of `path/filepath`. -/
def filepathExt (s : String) : String := extGo s.toList.reverse []

/-- `strings.HasPrefix` on character lists: first argument the pattern,
second the text. -/
def isPre : List Char → List Char → Bool
  | [], _ => true
  | _ :: _, [] => false
  | p :: ps, c :: cs => (p = c) && isPre ps cs

/-- A tag reserved for reference aliases: it begins with `ref_`. -/
def startsWithRef (t : String) : Bool := isPre ("ref_".toList) t.toList

/-- `detectFileMediaType` of `pkg/oci/registry.go`: an explicit media type
wins, else the extension table, else `application/octet-stream`. -/
def detectFileMediaType (f : RepoFile) : String :=
  if f.mediaType ≠ "" then f.mediaType
  else
    match filepathExt f.name with
    | ".txt" => "text/plain"
    | ".html" => "text/html"
    | ".xml" => "application/xml"
    | ".json" => "application/json"
    | ".tar" => "application/x-tar"
    | ".gz" => "application/x-gzip"
    | ".tgz" => "application/x-gzip"
    | ".zip" => "application/zip"
    | _ => "application/octet-stream"

/-- `Registry.loadFile` of `pkg/oci/registry.go`: the descriptor built for the
landed bytes — computed digest and size, detected media type, and both title
annotations set to the file name. -/
def loadFile (hash : Bytes → Digest) (content : Bytes) (f : RepoFile) : Descr :=
  ⟨detectFileMediaType f, hash content, content.length,
    some [(fileTitleKey, f.name), (imageTitleKey, f.name)]⟩

/-- The match test of `upsertFileLayer`:
`l.Annotations != nil && l.Annotations[FileNameAnnotation] ==
fileDesc.Annotations[FileNameAnnotation]`. -/
def matchesTitle (l d : Descr) : Bool :=
  l.annotations.isSome && (annValue l == annValue d)

/-- `upsertFileLayer` of `pkg/oci/registry.go`, as the first-match loop:
replace the first layer whose title annotation matches when the digest
changed, keep the list when it did not, append when no layer matches. -/
def upsertFileLayer : List Descr → Descr → Bool × List Descr
  | [], d => (true, [d])
  | l :: rest, d =>
    if matchesTitle l d then
      if l.digest ≠ d.digest then (true, d :: rest) else (false, l :: rest)
    else
      let r := upsertFileLayer rest d
      (r.1, l :: r.2)

/-- `manifestLayers` of `pkg/oci/registry.go`: the zero descriptor left by a
`NotFound` resolve yields no layers; otherwise the manifest is fetched from
the backend (failing like the backend fetch does) and its layer list
returned. -/
def manifestLayers (σ : Backend) (mdesc : Descr) : Except RegErr (List Descr) :=
  if mdesc.digest = [] then .ok []
  else
    match alookup σ.manifests mdesc.digest with
    | none => .error .notFound
    | some m => .ok m.layers

/-- The layer list `AddFile` starts from: resolve the owning tag (a failed
resolve leaves the zero descriptor) and read that manifest's layers. -/
def layersForTag (σ : Backend) (tag : String) : Except RegErr (List Descr) :=
  manifestLayers σ ((alookup σ.tags tag).getD emptyDescr)

/-- `oras.PackManifest` over an explicit manifest encoding `menc`: the
descriptor of the packed manifest bytes. -/
def packManifest (hash : Bytes → Digest) (menc : Manifest → Bytes)
    (m : Manifest) : Descr :=
  ⟨manifestMediaType, hash (menc m), (menc m).length, none⟩

/-- `Registry.AddFile` of `pkg/oci/registry.go` over the backend model:
build the file descriptor from the landed bytes, resolve the current
manifest (ignoring `NotFound`), read its layers, upsert; when unchanged,
return the resolved manifest and file descriptors without touching the
backend; otherwise pack the new manifest and copy blob, manifest and tag to
the backend.  The backend state is threaded; error returns leave it
unchanged. -/
def addFile (hash : Bytes → Digest) (menc : Manifest → Bytes)
    (atype : String) (σ : Backend) (f : RepoFile) (content : Bytes) :
    Backend × Except RegErr FileDescriptor :=
  let fileDesc := loadFile hash content f
  let manifestDesc := (alookup σ.tags f.owningTag).getD emptyDescr
  match layersForTag σ f.owningTag with
  | .error e => (σ, .error e)
  | .ok layers =>
    let r := upsertFileLayer layers fileDesc
    if r.1 = false then (σ, .ok ⟨manifestDesc, fileDesc⟩)
    else
      let m : Manifest := ⟨atype, r.2⟩
      let newManifestDesc := packManifest hash menc m
      (⟨ainsert σ.tags f.owningTag newManifestDesc,
        ainsert σ.manifests newManifestDesc.digest m,
        ainsert σ.blobs fileDesc.digest content⟩,
       .ok ⟨newManifestDesc, fileDesc⟩)

/-- The layer scan of `Registry.ReadFile`:
`l.Annotations[FileNameAnnotation] == f.Name` on each layer in order,
returning the first hit. -/
def findFileLayer : List Descr → String → Option Descr
  | [], _ => none
  | l :: rest, n => if annValue l == n then some l else findFileLayer rest n

/-- `Registry.ReadFile` of `pkg/oci/registry.go`: resolve the owning tag,
fetch and parse the manifest, scan the layers for the file name annotation,
fetch and return that layer's blob.  Every missing lookup surfaces as the
backend's `ErrNotFound`. -/
def readFile (σ : Backend) (f : RepoFile) :
    Except RegErr (FileDescriptor × Bytes) :=
  match alookup σ.tags f.owningTag with
  | none => .error .notFound
  | some mdesc =>
    match manifestLayers σ mdesc with
    | .error e => .error e
    | .ok layers =>
      match findFileLayer layers f.name with
      | none => .error .notFound
      | some l =>
        match alookup σ.blobs l.digest with
        | none => .error .notFound
        | some b => .ok (⟨mdesc, l⟩, b)

/-- The layer `ReadFile` would act on: resolve, fetch manifest, scan by file
name. -/
def foundLayer (σ : Backend) (f : RepoFile) : Option Descr :=
  match alookup σ.tags f.owningTag with
  | none => none
  | some mdesc =>
    match manifestLayers σ mdesc with
    | .error _ => none
    | .ok layers => findFileLayer layers f.name

/-- Modelled from the spec: the current `Registry.ListTags` — "Enumerates all
tags from the backend; excludes those with `ref_` prefix" (§4.4, P4) — is
missing from the sources; only an older unfiltered revision and the unit
test expecting the filtering are present. -/
def listTags (σ : Backend) : List String :=
  (σ.tags.map Prod.fst).filter (fun t => !startsWithRef t)

/-- Modelled from the spec: the current `Registry.AddFile` argument checks —
rejection of `ref_`-prefixed owning tags (§4.4, P5) and the caller-supplied
digest precondition checked against the computed digest before any backend
mutation (§4.2, §4.4, P6) — are missing from the sources; only their tests
and callers are present.  The `ref_` rejection precedes the pipeline, the
digest check sits in the descriptor build, before the backend is opened. -/
def addFileChecked (hash : Bytes → Digest) (menc : Manifest → Bytes)
    (atype : String) (σ : Backend) (f : RepoFile) (content : Bytes) :
    Backend × Except RegErr FileDescriptor :=
  if startsWithRef f.owningTag then (σ, .error .invalidArgument)
  else
    match f.digest with
    | none => addFile hash menc atype σ f content
    | some d =>
      if d = hash content then addFile hash menc atype σ f content
      else (σ, .error .digestMismatch)

/-- Modelled from the spec: the current `Registry.ReadFile` digest
precondition — "If caller supplied `digest`, a mismatch fails with
DigestMismatch" (§4.4, P6), checked against the fetched layer descriptor —
is missing from the sources; only its tests and callers are present. -/
def readFileChecked (σ : Backend) (f : RepoFile) :
    Except RegErr (FileDescriptor × Bytes) :=
  match alookup σ.tags f.owningTag with
  | none => .error .notFound
  | some mdesc =>
    match manifestLayers σ mdesc with
    | .error e => .error e
    | .ok layers =>
      match findFileLayer layers f.name with
      | none => .error .notFound
      | some l =>
        if (match f.digest with | none => false | some d => d ≠ l.digest)
        then .error .digestMismatch
        else
          match alookup σ.blobs l.digest with
          | none => .error .notFound
          | some b => .ok (⟨mdesc, l⟩, b)

/-- Events on the landing-zone scratch file during one `AddFile` call. -/
inductive LandEvent
  | create
  | remove
deriving DecidableEq

/-- `Registry.AddFile` with its landing-zone interaction made explicit.  The
incoming reader is `some content`, or `none` for a reader whose copy into
the scratch file fails (`io.Copy` error, e.g. a cancelled context).
Faithful to the source: `landFile` creates the scratch file and, on a copy
failure, returns the error without removing it, and `AddFile` returns
before its deferred `os.Remove(tmpFile)` is installed; on a successful
landing, the deferred remove runs on every return path. -/
def addFileScratch (hash : Bytes → Digest) (menc : Manifest → Bytes)
    (atype : String) (σ : Backend) (f : RepoFile) (ro : Option Bytes) :
    List LandEvent × Backend × Except RegErr FileDescriptor :=
  match ro with
  | none => ([.create], σ, .error .ioErr)
  | some content =>
    let r := addFile hash menc atype σ f content
    ([.create, .remove], r.1, r.2)

/-- Modelled from the spec: the checked `AddFile` with its landing-zone
interaction — "Rejects when `owning_tag` starts with `ref_`" before the
pipeline lands anything (§4.4, P5: "fails with InvalidArgument and performs
no I/O"). -/
def addFileCheckedScratch (hash : Bytes → Digest) (menc : Manifest → Bytes)
    (atype : String) (σ : Backend) (f : RepoFile) (ro : Option Bytes) :
    List LandEvent × Backend × Except RegErr FileDescriptor :=
  if startsWithRef f.owningTag then ([], σ, .error .invalidArgument)
  else
    match ro with
    | none => ([.create], σ, .error .ioErr)
    | some content =>
      let r := addFileChecked hash menc atype σ f content
      ([.create, .remove], r.1, r.2)

/-- Two layers carry the same `ocifactory.file.title` value: both have an
annotations map and the looked-up values agree. -/
def sharesTitleB (a b : Descr) : Bool :=
  a.annotations.isSome && b.annotations.isSome && (annValue a == annValue b)

/-- The manifest invariant: no two layers share the same
`ocifactory.file.title` annotation value. -/
def NoDupTitles (L : List Descr) : Prop :=
  L.Pairwise (fun a b => sharesTitleB a b = false)

/-- Well-formed backend states, as this program and a conforming registry
produce them: every stored blob sits under the digest of its bytes, every
layer of a stored manifest was packed by this code (so carries an
annotations map), and every such layer's blob is present. -/
structure WF (hash : Bytes → Digest) (σ : Backend) : Prop where
  blobKeys : ∀ p ∈ σ.blobs, p.1 = hash p.2
  layersAnnotated : ∀ q ∈ σ.manifests, ∀ l ∈ q.2.layers,
    l.annotations.isSome = true
  blobsPresent : ∀ q ∈ σ.manifests, ∀ l ∈ q.2.layers,
    (alookup σ.blobs l.digest).isSome = true

/-! Concrete instances used by witnesses and counterexamples. -/

/-- The identity digest function: the simplest injective model of sha-256. -/
def hashId : Bytes → Digest := fun b => b

/-- Layer digests flattened with separators, used by the concrete manifest
encoding below. -/
def menclist : List Descr → List Nat
  | [] => []
  | l :: rest => l.digest ++ (l.size :: menclist rest)

/-- A manifest encoding producing a non-empty digest under `hashId`. -/
def mencW : Manifest → Bytes := fun m => 0 :: menclist m.layers

/-- The empty backend. -/
def emptyBackend : Backend := ⟨[], [], []⟩

/-- A small concrete repository file. -/
def fW : RepoFile := ⟨"foobar", "v0", "test.txt", "", none⟩

/-- Concrete bytes. -/
def bW : Bytes := [104, 105]

/-- The layer descriptor `AddFile` builds for `fW` and `bW` under `hashId`. -/
def fdldW : Descr :=
  ⟨"text/plain", [104, 105], 2,
    some [(fileTitleKey, "test.txt"), (imageTitleKey, "test.txt")]⟩

/-- The manifest the first `AddFile` of `fW`/`bW` packs. -/
def mWit : Manifest := ⟨defaultArtifactType, [fdldW]⟩

/-- The packed manifest descriptor for `mWit` under `hashId`/`mencW`. -/
def pWit : Descr := ⟨manifestMediaType, [0, 104, 105, 2], 4, none⟩

/-- The backend state after the first `AddFile` of `fW`/`bW` into the empty
backend. -/
def σWit : Backend :=
  ⟨[("v0", pWit)], [([0, 104, 105, 2], mWit)], [([104, 105], [104, 105])]⟩

/-- The file descriptor that `AddFile` returns for `fW`/`bW`. -/
def fdWit : FileDescriptor := ⟨pWit, fdldW⟩

/-- A file whose owning tag carries the reserved `ref_` prefix. -/
def fRef : RepoFile := ⟨"foobar", "ref_latest", "test.txt", "", none⟩

/-- A stored layer with digest `[5]`. -/
def lItem5 : Descr :=
  ⟨"text/plain", [5], 1, some [(fileTitleKey, "a.txt")]⟩

/-- A manifest descriptor with digest `[7]`. -/
def mdesc7 : Descr := ⟨manifestMediaType, [7], 1, none⟩

/-- A backend holding one manifest whose single layer is `lItem5`, with its
blob present. -/
def σ5 : Backend :=
  ⟨[("v0", mdesc7)], [([7], ⟨defaultArtifactType, [lItem5]⟩)], [([5], [9])]⟩

/-- A read request for `a.txt` asserting the wrong digest `[9]`. -/
def f5 : RepoFile := ⟨"foobar", "v0", "a.txt", "", some [9]⟩

/-- A backend whose manifest references a layer whose blob is absent from the
blob store. -/
def σ8 : Backend :=
  ⟨[("v0", mdesc7)], [([7], ⟨defaultArtifactType, [lItem5]⟩)], []⟩

/-- The read request for `a.txt` without a digest assertion. -/
def f8 : RepoFile := ⟨"foobar", "v0", "a.txt", "", none⟩

/-- Two layers sharing the `ocifactory.file.title` value `dup.txt` with
different digests. -/
def lDupA : Descr := ⟨"text/plain", [1], 1, some [(fileTitleKey, "dup.txt")]⟩

/-- The later duplicate layer. -/
def lDupB : Descr := ⟨"text/plain", [2], 1, some [(fileTitleKey, "dup.txt")]⟩

/-- A backend whose manifest holds two layers titled `dup.txt`, both blobs
present. -/
def σ10 : Backend :=
  ⟨[("v0", mdesc7)],
   [([7], ⟨defaultArtifactType, [lDupA, lDupB]⟩)],
   [([1], [11]), ([2], [22])]⟩

/-- The read request for `dup.txt`. -/
def f10 : RepoFile := ⟨"foobar", "v0", "dup.txt", "", none⟩

/-! ## Association-list lemmas -/

theorem alookup_ainsert {α β : Type} [DecidableEq α]
    (l : List (α × β)) (k : α) (v : β) (a : α) :
    alookup (ainsert l k v) a = if a = k then some v else alookup l a := by
  induction l with
  | nil =>
    by_cases h : k = a
    · subst h
      simp [ainsert, alookup]
    · have h2 : ¬a = k := fun hh => h hh.symm
      simp [ainsert, alookup, h, h2]
  | cons p rest ih =>
    obtain ⟨k', v'⟩ := p
    by_cases hk : k' = k
    · subst hk
      by_cases h : k' = a
      · subst h
        simp [ainsert, alookup]
      · have h2 : ¬a = k' := fun hh => h hh.symm
        simp [ainsert, alookup, h, h2]
    · by_cases h : k = a
      · subst h
        simp [ainsert, alookup, hk, ih]
      · have h2 : ¬a = k := fun hh => h hh.symm
        simp [ainsert, alookup, hk, ih, h2]

theorem alookup_mem {α β : Type} [DecidableEq α]
    {l : List (α × β)} {a : α} {b : β} (h : alookup l a = some b) :
    (a, b) ∈ l := by
  induction l with
  | nil => simp [alookup] at h
  | cons p rest ih =>
    obtain ⟨k, v⟩ := p
    by_cases hk : k = a
    · subst hk
      simp [alookup] at h
      simp [h]
    · simp [alookup, hk] at h
      exact List.mem_cons_of_mem _ (ih h)

/-! ## Layer-upsert lemmas -/

theorem matchesTitle_self {d : Descr} (h : d.annotations.isSome = true) :
    matchesTitle d d = true := by
  simp [matchesTitle, h]

theorem upsert_again {L L' : List Descr} {d : Descr} {u : Bool}
    (hd : d.annotations.isSome = true)
    (h : upsertFileLayer L d = (u, L')) :
    upsertFileLayer L' d = (false, L') := by
  induction L generalizing u L' with
  | nil =>
    simp [upsertFileLayer] at h
    simp [← h.2, upsertFileLayer, matchesTitle_self hd]
  | cons l rest ih =>
    by_cases hm : matchesTitle l d = true
    · by_cases hdg : l.digest = d.digest
      · simp [upsertFileLayer, hm, hdg] at h
        simp [← h.2, upsertFileLayer, hm, hdg]
      · simp [upsertFileLayer, hm, hdg] at h
        simp [← h.2, upsertFileLayer, matchesTitle_self hd]
    · simp [upsertFileLayer, hm] at h
      rcases h with ⟨h1, h2⟩
      have ih' := ih (show upsertFileLayer rest d =
        ((upsertFileLayer rest d).1, (upsertFileLayer rest d).2) from rfl)
      simp [← h2, upsertFileLayer, hm, ih']

theorem mem_upsert_snd {L : List Descr} {d b : Descr}
    (h : b ∈ (upsertFileLayer L d).2) : b ∈ L ∨ b = d := by
  induction L with
  | nil =>
    simp [upsertFileLayer] at h
    exact Or.inr h
  | cons l rest ih =>
    by_cases hm : matchesTitle l d = true
    · by_cases hdg : l.digest = d.digest
      · simp [upsertFileLayer, hm, hdg] at h
        rcases h with h | h
        · exact Or.inl (by simp [h])
        · exact Or.inl (List.mem_cons_of_mem _ h)
      · simp [upsertFileLayer, hm, hdg] at h
        rcases h with h | h
        · exact Or.inr h
        · exact Or.inl (List.mem_cons_of_mem _ h)
    · simp [upsertFileLayer, hm] at h
      rcases h with h | h
      · exact Or.inl (by simp [h])
      · rcases ih h with h' | h'
        · exact Or.inl (List.mem_cons_of_mem _ h')
        · exact Or.inr h'

theorem upsert_nomatch {L : List Descr} {d : Descr}
    (h : ∀ l ∈ L, matchesTitle l d = false) :
    upsertFileLayer L d = (true, L ++ [d]) := by
  induction L with
  | nil => simp [upsertFileLayer]
  | cons l rest ih =>
    have hl : matchesTitle l d = false := h l (by simp)
    have hrest := ih (fun x hx => h x (List.mem_cons_of_mem _ hx))
    simp [upsertFileLayer, hl, hrest]

theorem upsert_first_same {d : Descr} :
    ∀ (L : List Descr) (i : Nat) (hi : i < L.length),
    matchesTitle (L.get ⟨i, hi⟩) d = true →
    (∀ k (hk : k < L.length), k < i → matchesTitle (L.get ⟨k, hk⟩) d = false) →
    (L.get ⟨i, hi⟩).digest = d.digest →
    upsertFileLayer L d = (false, L)
  | [], i, hi, _, _, _ => by simp at hi
  | l :: rest, 0, _, hm, _, hdg => by
    simp [List.get] at hm hdg
    simp [upsertFileLayer, hm, hdg]
  | l :: rest, i + 1, hi, hm, hfirst, hdg => by
    have hl : matchesTitle l d = false := by
      have := hfirst 0 (by simp) (Nat.succ_pos i)
      simpa [List.get] using this
    have hrest := upsert_first_same rest i (by simpa using hi)
      (by simpa [List.get] using hm)
      (fun k hk hki =>  by
        have := hfirst (k + 1) (by simpa using hk) (Nat.succ_lt_succ hki)
        simpa [List.get] using this)
      (by simpa [List.get] using hdg)
    simp [upsertFileLayer, hl, hrest]

theorem upsert_first_diff {d : Descr} :
    ∀ (L : List Descr) (i : Nat) (hi : i < L.length),
    matchesTitle (L.get ⟨i, hi⟩) d = true →
    (∀ k (hk : k < L.length), k < i → matchesTitle (L.get ⟨k, hk⟩) d = false) →
    (L.get ⟨i, hi⟩).digest ≠ d.digest →
    upsertFileLayer L d = (true, L.set i d)
  | [], i, hi, _, _, _ => by simp at hi
  | l :: rest, 0, _, hm, _, hdg => by
    simp [List.get] at hm hdg
    simp [upsertFileLayer, hm, hdg, List.set]
  | l :: rest, i + 1, hi, hm, hfirst, hdg => by
    have hl : matchesTitle l d = false := by
      have := hfirst 0 (by simp) (Nat.succ_pos i)
      simpa [List.get] using this
    have hrest := upsert_first_diff rest i (by simpa using hi)
      (by simpa [List.get] using hm)
      (fun k hk hki => by
        have := hfirst (k + 1) (by simpa using hk) (Nat.succ_lt_succ hki)
        simpa [List.get] using this)
      (by simpa [List.get] using hdg)
    simp [upsertFileLayer, hl, hrest, List.set]

/-! ## Layer-scan lemmas -/

theorem findFileLayer_mem {n : String} :
    ∀ {L : List Descr} {l : Descr}, findFileLayer L n = some l → l ∈ L := by
  intro L
  induction L with
  | nil => intro l h; simp [findFileLayer] at h
  | cons x rest ih =>
    intro l h
    by_cases hx : (annValue x == n) = true
    · simp [findFileLayer, hx] at h
      simp [h]
    · simp [findFileLayer, hx] at h
      exact List.mem_cons_of_mem _ (ih h)

theorem findFileLayer_first {n : String} :
    ∀ {L : List Descr} {l : Descr}, findFileLayer L n = some l →
    ∃ j, ∃ hj : j < L.length, l = L.get ⟨j, hj⟩ ∧ annValue l = n ∧
      ∀ k, ∀ hk : k < L.length, k < j → annValue (L.get ⟨k, hk⟩) ≠ n := by
  intro L
  induction L with
  | nil => intro l h; simp [findFileLayer] at h
  | cons x rest ih =>
    intro l h
    by_cases hx : (annValue x == n) = true
    · simp [findFileLayer, hx] at h
      refine ⟨0, by simp, by simp [List.get, h], ?_, ?_⟩
      · rw [← h]; exact of_decide_eq_true hx
      · intro k hk hk0
        exact absurd hk0 (Nat.not_lt_zero k)
    · simp [findFileLayer, hx] at h
      obtain ⟨j, hj, hget, hval, hfirst⟩ := ih h
      refine ⟨j + 1, by simpa using hj, by simpa [List.get] using hget,
        hval, ?_⟩
      intro k hk hkj
      match k with
      | 0 =>
        simpa [List.get] using of_decide_eq_false (by simpa using hx)
      | k + 1 =>
        have := hfirst k (by simpa using hk) (Nat.lt_of_succ_lt_succ hkj)
        simpa [List.get] using this

theorem matchesTitle_iff {l d : Descr} :
    matchesTitle l d = true ↔
      l.annotations.isSome = true ∧ annValue l = annValue d := by
  simp [matchesTitle, Bool.and_eq_true]

theorem sharesTitleB_iff {a b : Descr} :
    sharesTitleB a b = true ↔
      a.annotations.isSome = true ∧ b.annotations.isSome = true ∧
        annValue a = annValue b := by
  simp [sharesTitleB, Bool.and_eq_true, and_assoc]

theorem annValue_loadFile (hash : Bytes → Digest) (content : Bytes)
    (f : RepoFile) : annValue (loadFile hash content f) = f.name := by
  simp [annValue, annGet, loadFile, alookup]

theorem loadFile_isSome (hash : Bytes → Digest) (content : Bytes)
    (f : RepoFile) : (loadFile hash content f).annotations.isSome = true :=
  rfl

theorem find_of_upsert_true {d : Descr} :
    ∀ {L L' : List Descr},
    (∀ l ∈ L, l.annotations.isSome = true) →
    upsertFileLayer L d = (true, L') →
    findFileLayer L' (annValue d) = some d := by
  intro L
  induction L with
  | nil =>
    intro L' _ h
    simp [upsertFileLayer] at h
    simp [← h, findFileLayer]
  | cons l rest ih =>
    intro L' hL h
    by_cases hm : matchesTitle l d = true
    · by_cases hdg : l.digest = d.digest
      · simp [upsertFileLayer, hm, hdg] at h
      · simp [upsertFileLayer, hm, hdg] at h
        simp [← h, findFileLayer]
    · simp [upsertFileLayer, hm] at h
      have hlread : (annValue l == annValue d) = false := by
        by_contra hc
        exact hm (matchesTitle_iff.mpr
          ⟨hL l (by simp), by simpa using hc⟩)
      have := ih (fun x hx => hL x (List.mem_cons_of_mem _ hx))
        (show upsertFileLayer rest d =
          (true, (upsertFileLayer rest d).2) by rw [← h.1])
      simp [← h.2, findFileLayer, hlread, this]

theorem find_of_upsert_false {d : Descr} :
    ∀ {L L' : List Descr},
    (∀ l ∈ L, l.annotations.isSome = true) →
    upsertFileLayer L d = (false, L') →
    L' = L ∧ ∃ l, findFileLayer L (annValue d) = some l ∧
      l.digest = d.digest := by
  intro L
  induction L with
  | nil =>
    intro L' _ h
    simp [upsertFileLayer] at h
  | cons l rest ih =>
    intro L' hL h
    by_cases hm : matchesTitle l d = true
    · by_cases hdg : l.digest = d.digest
      · simp [upsertFileLayer, hm, hdg] at h
        have hread : (annValue l == annValue d) = true := by
          simpa using (matchesTitle_iff.mp hm).2
        exact ⟨h.symm, l, by simp [findFileLayer, hread], hdg⟩
      · simp [upsertFileLayer, hm, hdg] at h
    · simp [upsertFileLayer, hm] at h
      obtain ⟨hrest, hfind⟩ := ih
        (fun x hx => hL x (List.mem_cons_of_mem _ hx))
        (show upsertFileLayer rest d =
          (false, (upsertFileLayer rest d).2) by rw [← h.1])
      have hlread : (annValue l == annValue d) = false := by
        by_contra hc
        exact hm (matchesTitle_iff.mpr
          ⟨hL l (by simp), by simpa using hc⟩)
      refine ⟨by simp [← h.2, hrest], ?_⟩
      obtain ⟨l', hl', hdig⟩ := hfind
      exact ⟨l', by simp [findFileLayer, hlread, hl'], hdig⟩

theorem upsert_preserves_nodup (L : List Descr) (d : Descr)
    (h : NoDupTitles L) : NoDupTitles (upsertFileLayer L d).2 := by
  induction L with
  | nil =>
    simp [upsertFileLayer, NoDupTitles]
  | cons l rest ih =>
    rw [NoDupTitles, List.pairwise_cons] at h
    obtain ⟨hl, hrest⟩ := h
    by_cases hm : matchesTitle l d = true
    · by_cases hdg : l.digest = d.digest
      · simp [upsertFileLayer, hm, hdg, NoDupTitles, List.pairwise_cons]
        exact ⟨fun b hb => hl b hb, hrest⟩
      · simp [upsertFileLayer, hm, hdg, NoDupTitles, List.pairwise_cons]
        constructor
        · intro b hb
          by_contra hc
          have hs : sharesTitleB d b = true := by
            revert hc
            cases sharesTitleB d b <;> simp
          obtain ⟨hds, hbs, hv⟩ := sharesTitleB_iff.mp hs
          obtain ⟨hls, hlv⟩ := matchesTitle_iff.mp hm
          have : sharesTitleB l b = true :=
            sharesTitleB_iff.mpr ⟨hls, hbs, hlv.trans hv⟩
          rw [hl b hb] at this
          exact Bool.false_ne_true this
        · exact hrest
    · have ihr := ih hrest
      simp [upsertFileLayer, hm, NoDupTitles, List.pairwise_cons]
      constructor
      · intro b hb
        rcases mem_upsert_snd hb with hbm | hbd
        · exact hl b hbm
        · subst hbd
          by_contra hc
          have hs : sharesTitleB l b = true := by
            revert hc
            cases sharesTitleB l b <;> simp
          obtain ⟨hls, _, hv⟩ := sharesTitleB_iff.mp hs
          exact hm (matchesTitle_iff.mpr ⟨hls, hv⟩)
      · exact ihr

theorem layersForTag_annotated {hash : Bytes → Digest} {σ : Backend}
    {tag : String} {L : List Descr} (hwf : WF hash σ)
    (h : layersForTag σ tag = .ok L) :
    ∀ l ∈ L, l.annotations.isSome = true := by
  rw [layersForTag] at h
  cases hlk : alookup σ.tags tag with
  | none =>
    rw [hlk] at h
    have he : manifestLayers σ (Option.getD none emptyDescr) =
        .ok ([] : List Descr) := rfl
    rw [he] at h
    injection h with h2
    rw [← h2]
    simp
  | some mdesc =>
    rw [hlk] at h
    simp only [Option.getD] at h
    by_cases hdg : mdesc.digest = []
    · rw [manifestLayers, if_pos hdg] at h
      simp only [Except.ok.injEq] at h
      intro l hl
      rw [← h] at hl
      simp at hl
    · rw [manifestLayers, if_neg hdg] at h
      cases hm : alookup σ.manifests mdesc.digest with
      | none => rw [hm] at h; simp at h
      | some m =>
        rw [hm] at h
        simp only [Except.ok.injEq] at h
        rw [← h]
        exact hwf.layersAnnotated _ (alookup_mem hm)

/-! ## Unfolding equations for the pipeline operations -/

theorem addFile_err_layers {hash : Bytes → Digest} {menc : Manifest → Bytes}
    {atype : String} {σ : Backend} {f : RepoFile} {content : Bytes}
    {e : RegErr} (hl : layersForTag σ f.owningTag = .error e) :
    addFile hash menc atype σ f content = (σ, .error e) := by
  simp only [addFile, hl]

theorem addFile_ok_layers {hash : Bytes → Digest} {menc : Manifest → Bytes}
    {atype : String} {σ : Backend} {f : RepoFile} {content : Bytes}
    {L : List Descr} (hl : layersForTag σ f.owningTag = .ok L) :
    addFile hash menc atype σ f content =
      (if (upsertFileLayer L (loadFile hash content f)).1 = false
       then (σ, .ok ⟨(alookup σ.tags f.owningTag).getD emptyDescr,
                loadFile hash content f⟩)
       else
        (⟨ainsert σ.tags f.owningTag
            (packManifest hash menc
              ⟨atype, (upsertFileLayer L (loadFile hash content f)).2⟩),
          ainsert σ.manifests
            (packManifest hash menc
              ⟨atype, (upsertFileLayer L (loadFile hash content f)).2⟩).digest
            ⟨atype, (upsertFileLayer L (loadFile hash content f)).2⟩,
          ainsert σ.blobs (loadFile hash content f).digest content⟩,
         .ok ⟨packManifest hash menc
              ⟨atype, (upsertFileLayer L (loadFile hash content f)).2⟩,
            loadFile hash content f⟩)) := by
  simp only [addFile, hl]

theorem readFile_eq {σ : Backend} {f : RepoFile} {mdesc l : Descr}
    {layers : List Descr} {b : Bytes}
    (hlk : alookup σ.tags f.owningTag = some mdesc)
    (hml : manifestLayers σ mdesc = .ok layers)
    (hfl : findFileLayer layers f.name = some l)
    (hb : alookup σ.blobs l.digest = some b) :
    readFile σ f = .ok (⟨mdesc, l⟩, b) := by
  simp only [readFile, hlk, hml, hfl, hb]

theorem manifestLayers_found {σ : Backend} {mdesc : Descr} {m : Manifest}
    (hdg : mdesc.digest ≠ []) (hm : alookup σ.manifests mdesc.digest = some m) :
    manifestLayers σ mdesc = .ok m.layers := by
  rw [manifestLayers, if_neg hdg, hm]

/-! ## The claims -/

/-- Claim C3: for every layer list and new file descriptor, the upsert
appends the descriptor at the end with updated=true when no layer's
`ocifactory.file.title` annotation matches the descriptor's; when the first
matching layer has an identical digest it returns updated=false with the
original list; when the first matching layer's digest differs, the
descriptor replaces that layer at the same index with updated=true, and
every other position is unchanged. -/
theorem upsertFileLayer_spec (L : List Descr) (d : Descr) :
    ((∀ l ∈ L, matchesTitle l d = false) →
      upsertFileLayer L d = (true, L ++ [d])) ∧
    (∀ i, ∀ hi : i < L.length,
      matchesTitle (L.get ⟨i, hi⟩) d = true →
      (∀ k, ∀ hk : k < L.length, k < i →
        matchesTitle (L.get ⟨k, hk⟩) d = false) →
      ((L.get ⟨i, hi⟩).digest = d.digest →
        upsertFileLayer L d = (false, L)) ∧
      ((L.get ⟨i, hi⟩).digest ≠ d.digest →
        upsertFileLayer L d = (true, L.set i d) ∧
        ∀ j, j ≠ i → (L.set i d)[j]? = L[j]?)) := by
  refine ⟨fun h => upsert_nomatch h, ?_⟩
  intro i hi hm hfirst
  refine ⟨fun he => upsert_first_same L i hi hm hfirst he, fun hne => ?_⟩
  refine ⟨upsert_first_diff L i hi hm hfirst hne, fun j hj => ?_⟩
  exact List.getElem?_set_ne (Ne.symm hj)

/-- Claim C4: the upsert preserves the manifest invariant that no two layers
share the same `ocifactory.file.title` annotation value, and hence every
manifest `AddFile` stores was either already stored or has layers satisfying
the invariant, whenever the layer list it started from did. -/
theorem upsert_preserves_title_uniqueness :
    (∀ (L : List Descr) (d : Descr),
      NoDupTitles L → NoDupTitles (upsertFileLayer L d).2) ∧
    (∀ (hash : Bytes → Digest) (menc : Manifest → Bytes) (atype : String)
      (σ σ' : Backend) (f : RepoFile) (content : Bytes)
      (fd : FileDescriptor) (L : List Descr),
      addFile hash menc atype σ f content = (σ', .ok fd) →
      layersForTag σ f.owningTag = .ok L →
      NoDupTitles L →
      ∀ dg m, alookup σ'.manifests dg = some m →
        alookup σ.manifests dg = some m ∨ NoDupTitles m.layers) := by
  refine ⟨fun L d => upsert_preserves_nodup L d, ?_⟩
  intro hash menc atype σ σ' f content fd L h hl hno dg m hm
  rw [addFile_ok_layers hl] at h
  by_cases hu : (upsertFileLayer L (loadFile hash content f)).1 = false
  · rw [if_pos hu] at h
    injection h with h1 _
    rw [← h1] at hm
    exact Or.inl hm
  · rw [if_neg hu] at h
    injection h with h1 _
    rw [← h1] at hm
    simp only [alookup_ainsert] at hm
    by_cases hdg :
      dg = (packManifest hash menc
        ⟨atype, (upsertFileLayer L (loadFile hash content f)).2⟩).digest
    · rw [if_pos hdg] at hm
      injection hm with hm2
      right
      rw [← hm2]
      exact upsert_preserves_nodup L _ hno
    · rw [if_neg hdg] at hm
      exact Or.inl hm

/-- Claim C7: ListTags returns exactly the backend's tag enumeration with the
`ref_`-prefixed tags excluded, preserving the backend's order; in
particular no returned tag begins with `ref_`. -/
theorem listTags_excludes_ref (σ : Backend) :
    (∀ t ∈ listTags σ, startsWithRef t = false) ∧
    (∀ t, t ∈ listTags σ ↔
      t ∈ σ.tags.map Prod.fst ∧ startsWithRef t = false) ∧
    List.Sublist (listTags σ) (σ.tags.map Prod.fst) := by
  refine ⟨?_, ?_, List.filter_sublist _⟩
  · intro t ht
    rw [listTags, List.mem_filter] at ht
    simpa using ht.2
  · intro t
    rw [listTags, List.mem_filter]
    simp

/-- Claim C6: AddFile on a file whose owning tag starts with `ref_` fails
with InvalidArgument, leaves the backend untouched and performs no
landing-zone write (no scratch-file event at all). -/
theorem addFile_rejects_ref_tag (hash : Bytes → Digest)
    (menc : Manifest → Bytes) (atype : String) (σ : Backend) (f : RepoFile)
    (content : Bytes) (ro : Option Bytes)
    (h : startsWithRef f.owningTag = true) :
    addFileChecked hash menc atype σ f content =
      (σ, .error .invalidArgument) ∧
    addFileCheckedScratch hash menc atype σ f ro =
      ([], σ, .error .invalidArgument) := by
  constructor
  · rw [addFileChecked, if_pos h]
  · rw [addFileCheckedScratch.eq_def, if_pos h]

/-- Witness for C6 at a concrete `ref_`-prefixed tag. -/
theorem addFile_rejects_ref_tag_witness :
    addFileChecked hashId mencW defaultArtifactType emptyBackend fRef bW =
      (emptyBackend, .error .invalidArgument) :=
  (addFile_rejects_ref_tag hashId mencW defaultArtifactType emptyBackend
    fRef bW none (by decide)).1

/-- Claim C9 is violated by the source: when the copy into the landing zone
fails, `landFile` returns the error without removing the scratch file and
`AddFile` returns before its deferred remove is installed, so the scratch
file survives that return path; on a successful landing the deferred remove
does run on every return path. -/
theorem addFile_scratch_leak_on_copy_failure :
    (addFileScratch hashId mencW defaultArtifactType emptyBackend fW
        none).1 = [LandEvent.create] ∧
    LandEvent.remove ∉
      (addFileScratch hashId mencW defaultArtifactType emptyBackend fW
        none).1 ∧
    ∀ (hash : Bytes → Digest) (menc : Manifest → Bytes) (atype : String)
      (σ : Backend) (f : RepoFile) (b : Bytes),
      LandEvent.remove ∈ (addFileScratch hash menc atype σ f (some b)).1 := by
  refine ⟨rfl, by decide, ?_⟩
  intro hash menc atype σ f b
  simp [addFileScratch]

/-- Claim C5: a call carrying a caller-supplied digest that disagrees with
the computed digest (write) or the fetched layer digest (read) fails with
DigestMismatch before any backend mutation: AddFile returns the backend
unchanged and ReadFile reports the mismatch instead of a stream. -/
theorem digest_precondition_rejected (hash : Bytes → Digest)
    (menc : Manifest → Bytes) (atype : String) (σ : Backend) (f : RepoFile)
    (content : Bytes) (d : Digest)
    (hd : f.digest = some d)
    (href : startsWithRef f.owningTag = false) :
    (d ≠ hash content →
      addFileChecked hash menc atype σ f content =
        (σ, .error .digestMismatch)) ∧
    (∀ l, foundLayer σ f = some l → l.digest ≠ d →
      readFileChecked σ f = .error .digestMismatch) := by
  constructor
  · intro hne
    rw [addFileChecked, if_neg (by simp [href]), hd]
    exact if_neg hne
  · intro l hfl hne
    cases hlk : alookup σ.tags f.owningTag with
    | none =>
      simp only [foundLayer, hlk] at hfl
      exact absurd hfl (by simp)
    | some mdesc =>
      simp only [foundLayer, hlk] at hfl
      cases hml : manifestLayers σ mdesc with
      | error e =>
        rw [hml] at hfl
        simp at hfl
      | ok layers =>
        rw [hml] at hfl
        simp only at hfl
        simp only [readFileChecked, hlk, hml, hfl, hd]
        rw [if_pos (by simpa using fun hh => hne hh.symm)]

/-- Witness for C5: reading `a.txt` (stored digest `[5]`) while asserting
digest `[9]` fails with DigestMismatch. -/
theorem digest_precondition_rejected_witness :
    readFileChecked σ5 f5 = .error .digestMismatch :=
  (digest_precondition_rejected hashId mencW defaultArtifactType σ5 f5 bW
    [9] rfl (by decide)).2 lItem5 rfl (by decide)

/-- Claim C1: after a successful `AddFile`, repeating it with the same file
identity and identical bytes returns the same file descriptor and performs
no manifest pack, tag or push: the backend state it returns is exactly the
state the first call left (in particular the tag's digest is unchanged). -/
theorem addFile_repeat_idempotent (hash : Bytes → Digest)
    (menc : Manifest → Bytes) (atype : String) (σ σ₁ : Backend)
    (f : RepoFile) (content : Bytes) (fd : FileDescriptor)
    (hpack : ∀ m, hash (menc m) ≠ [])
    (h : addFile hash menc atype σ f content = (σ₁, .ok fd)) :
    addFile hash menc atype σ₁ f content = (σ₁, .ok fd) := by
  cases hl : layersForTag σ f.owningTag with
  | error e =>
    rw [addFile_err_layers hl] at h
    injection h with _ h2
    exact absurd h2 (by simp)
  | ok L =>
    rw [addFile_ok_layers hl] at h
    by_cases hu : (upsertFileLayer L (loadFile hash content f)).1 = false
    · rw [if_pos hu] at h
      injection h with h1 h2
      rw [← h1]
      rw [addFile_ok_layers hl, if_pos hu, h2]
    · rw [if_neg hu] at h
      injection h with h1 h2
      injection h2 with h2
      have htags : σ₁.tags =
          ainsert σ.tags f.owningTag
            (packManifest hash menc
              ⟨atype, (upsertFileLayer L (loadFile hash content f)).2⟩) := by
        rw [← h1]
      have hmans : σ₁.manifests =
          ainsert σ.manifests
            (packManifest hash menc
              ⟨atype, (upsertFileLayer L (loadFile hash content f)).2⟩).digest
            ⟨atype, (upsertFileLayer L (loadFile hash content f)).2⟩ := by
        rw [← h1]
      have hlk1 : alookup σ₁.tags f.owningTag =
          some (packManifest hash menc
            ⟨atype, (upsertFileLayer L (loadFile hash content f)).2⟩) := by
        rw [htags, alookup_ainsert]
        simp
      have hPd : (packManifest hash menc
          ⟨atype, (upsertFileLayer L (loadFile hash content f)).2⟩).digest ≠
            [] := hpack _
      have hml1 : manifestLayers σ₁
          (packManifest hash menc
            ⟨atype, (upsertFileLayer L (loadFile hash content f)).2⟩) =
          .ok (upsertFileLayer L (loadFile hash content f)).2 := by
        rw [manifestLayers, if_neg hPd, hmans, alookup_ainsert]
        simp
      have hl1 : layersForTag σ₁ f.owningTag =
          .ok (upsertFileLayer L (loadFile hash content f)).2 := by
        rw [layersForTag, hlk1]
        exact hml1
      have hup : upsertFileLayer
          (upsertFileLayer L (loadFile hash content f)).2
          (loadFile hash content f) =
            (false, (upsertFileLayer L (loadFile hash content f)).2) :=
        upsert_again (loadFile_isSome hash content f) rfl
      rw [addFile_ok_layers hl1, if_pos (by rw [hup]), hlk1]
      simp only [Option.getD]
      rw [h2]

/-- Witness for C1: repeating the `AddFile` of `test.txt` into the state the
first call produced returns the same descriptor and the same state. -/
theorem addFile_repeat_idempotent_witness :
    addFile hashId mencW defaultArtifactType σWit fW bW =
      (σWit, .ok fdWit) :=
  addFile_repeat_idempotent hashId mencW defaultArtifactType emptyBackend
    σWit fW bW fdWit (fun m => by simp [hashId, mencW]) (by decide)

/-- Claim C2: from a well-formed backend state, a successful `AddFile` of
bytes `B` followed by `ReadFile` of the same file identity streams exactly
`B`. -/
theorem addFile_readFile_roundtrip (hash : Bytes → Digest)
    (menc : Manifest → Bytes) (atype : String) (σ σ' : Backend)
    (f : RepoFile) (content : Bytes) (fd : FileDescriptor)
    (hinj : Function.Injective hash)
    (hpack : ∀ m, hash (menc m) ≠ [])
    (hwf : WF hash σ)
    (h : addFile hash menc atype σ f content = (σ', .ok fd)) :
    ∃ fd', readFile σ' f = .ok (fd', content) := by
  cases hl : layersForTag σ f.owningTag with
  | error e =>
    rw [addFile_err_layers hl] at h
    injection h with _ h2
    exact absurd h2 (by simp)
  | ok L =>
    have hannot := layersForTag_annotated hwf hl
    rw [addFile_ok_layers hl] at h
    by_cases hu : (upsertFileLayer L (loadFile hash content f)).1 = false
    · rw [if_pos hu] at h
      injection h with h1 _
      rw [← h1]
      have hfalse : upsertFileLayer L (loadFile hash content f) =
          (false, (upsertFileLayer L (loadFile hash content f)).2) := by
        rw [← hu]
      obtain ⟨-, lstar, hfind, hdig⟩ := find_of_upsert_false hannot hfalse
      rw [annValue_loadFile] at hfind
      cases hlk : alookup σ.tags f.owningTag with
      | none =>
        exfalso
        rw [layersForTag, hlk] at hl
        have he : manifestLayers σ (Option.getD none emptyDescr) =
            .ok ([] : List Descr) := rfl
        rw [he] at hl
        injection hl with hl2
        rw [← hl2] at hu
        simp [upsertFileLayer] at hu
      | some mdesc =>
        rw [layersForTag, hlk] at hl
        simp only [Option.getD] at hl
        by_cases hdg : mdesc.digest = []
        · exfalso
          rw [manifestLayers, if_pos hdg] at hl
          injection hl with hl2
          rw [← hl2] at hu
          simp [upsertFileLayer] at hu
        · rw [manifestLayers, if_neg hdg] at hl
          cases hm : alookup σ.manifests mdesc.digest with
          | none =>
            rw [hm] at hl
            exact absurd hl (by simp)
          | some m =>
            rw [hm] at hl
            injection hl with hl2
            have hml : manifestLayers σ mdesc = .ok L := by
              rw [manifestLayers, if_neg hdg, hm]
              exact congrArg Except.ok hl2
            have hlmem : lstar ∈ m.layers := by
              rw [hl2]
              exact findFileLayer_mem hfind
            have hbsome :=
              hwf.blobsPresent _ (alookup_mem hm) lstar hlmem
            obtain ⟨b, hb⟩ := Option.isSome_iff_exists.mp hbsome
            have hkey : lstar.digest = hash b :=
              hwf.blobKeys _ (alookup_mem hb)
            have hdig2 : lstar.digest = hash content := hdig
            have hbB : b = content := by
              apply hinj
              rw [← hkey, hdig2]
            rw [hbB] at hb
            exact ⟨⟨mdesc, lstar⟩, readFile_eq hlk hml hfind hb⟩
    · rw [if_neg hu] at h
      injection h with h1 h2
      injection h2 with h2
      rw [← h1]
      have hP :=
        packManifest hash menc
          ⟨atype, (upsertFileLayer L (loadFile hash content f)).2⟩
      have htrue : upsertFileLayer L (loadFile hash content f) =
          (true, (upsertFileLayer L (loadFile hash content f)).2) := by
        rw [Bool.not_eq_false] at hu
        rw [← hu]
      have hfind :=
        find_of_upsert_true hannot htrue
      rw [annValue_loadFile] at hfind
      have hlk1 : alookup
          (ainsert σ.tags f.owningTag
            (packManifest hash menc
              ⟨atype, (upsertFileLayer L (loadFile hash content f)).2⟩))
          f.owningTag =
          some (packManifest hash menc
            ⟨atype, (upsertFileLayer L (loadFile hash content f)).2⟩) := by
        rw [alookup_ainsert]
        simp
      have hPd : (packManifest hash menc
          ⟨atype, (upsertFileLayer L (loadFile hash content f)).2⟩).digest ≠
            [] := hpack _
      have hml1 : manifestLayers
          ⟨ainsert σ.tags f.owningTag
              (packManifest hash menc
                ⟨atype, (upsertFileLayer L (loadFile hash content f)).2⟩),
            ainsert σ.manifests
              (packManifest hash menc
                ⟨atype,
                  (upsertFileLayer L (loadFile hash content f)).2⟩).digest
              ⟨atype, (upsertFileLayer L (loadFile hash content f)).2⟩,
            ainsert σ.blobs (loadFile hash content f).digest content⟩
          (packManifest hash menc
            ⟨atype, (upsertFileLayer L (loadFile hash content f)).2⟩) =
          .ok (upsertFileLayer L (loadFile hash content f)).2 := by
        rw [manifestLayers, if_neg hPd]
        simp only
        rw [alookup_ainsert]
        simp
      have hb : alookup
          (ainsert σ.blobs (loadFile hash content f).digest content)
          (loadFile hash content f).digest = some content := by
        rw [alookup_ainsert]
        simp
      exact ⟨⟨packManifest hash menc
          ⟨atype, (upsertFileLayer L (loadFile hash content f)).2⟩,
        loadFile hash content f⟩,
        readFile_eq hlk1 hml1 hfind hb⟩

/-- Witness for C2: adding `test.txt` to the empty backend and reading it
back returns the original bytes. -/
theorem addFile_readFile_roundtrip_witness :
    ∃ fd', readFile σWit fW = .ok (fd', bW) :=
  addFile_readFile_roundtrip hashId mencW defaultArtifactType emptyBackend
    σWit fW bW fdWit (fun a b hab => hab)
    (fun m => by simp [hashId, mencW])
    ⟨by simp [emptyBackend], by simp [emptyBackend], by simp [emptyBackend]⟩
    (by decide)

/-- `manifestLayers` fails only with the backend's not-found error. -/
theorem manifestLayers_error {σ : Backend} {mdesc : Descr} {e : RegErr}
    (h : manifestLayers σ mdesc = .error e) : e = .notFound := by
  rw [manifestLayers] at h
  by_cases hdg : mdesc.digest = []
  · rw [if_pos hdg] at h
    exact absurd h (by simp)
  · rw [if_neg hdg] at h
    cases hm : alookup σ.manifests mdesc.digest with
    | none =>
      rw [hm] at h
      injection h with h2
      exact h2.symm
    | some m =>
      rw [hm] at h
      exact absurd h (by simp)

/-- Counterexample to claim C8 as stated: in `σ8` the tag resolves and the
resolved manifest has a layer titled `a.txt`, yet `ReadFile` fails with
NotFound, because that layer's blob is absent from the backend. -/
theorem readFile_notFound_iff_counterexample :
    readFile σ8 f8 = .error .notFound ∧
    alookup σ8.tags f8.owningTag = some mdesc7 ∧
    manifestLayers σ8 mdesc7 = .ok [lItem5] ∧
    annValue lItem5 = f8.name := by
  decide

/-- Claim C8 (amended): `ReadFile` fails with NotFound exactly when the tag
cannot be resolved, the resolved manifest cannot be fetched, no layer of the
fetched manifest carries a title annotation equal to the file name, or the
matched layer's blob cannot be fetched from the backend; otherwise it
returns the manifest descriptor, the matching layer descriptor and a stream
of that layer's blob. -/
theorem readFile_notFound_characterization (σ : Backend) (f : RepoFile) :
    (readFile σ f = .error .notFound ↔
      alookup σ.tags f.owningTag = none ∨
      ∃ mdesc, alookup σ.tags f.owningTag = some mdesc ∧
        (manifestLayers σ mdesc = .error .notFound ∨
         ∃ L, manifestLayers σ mdesc = .ok L ∧
           (findFileLayer L f.name = none ∨
            ∃ l, findFileLayer L f.name = some l ∧
              alookup σ.blobs l.digest = none))) ∧
    (∀ mdesc L l b,
      alookup σ.tags f.owningTag = some mdesc →
      manifestLayers σ mdesc = .ok L →
      findFileLayer L f.name = some l →
      alookup σ.blobs l.digest = some b →
      readFile σ f = .ok (⟨mdesc, l⟩, b)) := by
  constructor
  · constructor
    · intro hnf
      cases hlk : alookup σ.tags f.owningTag with
      | none => exact Or.inl rfl
      | some mdesc =>
        refine Or.inr ⟨mdesc, rfl, ?_⟩
        cases hml : manifestLayers σ mdesc with
        | error e =>
          have he := manifestLayers_error hml
          exact Or.inl (by rw [he])
        | ok L =>
          refine Or.inr ⟨L, rfl, ?_⟩
          cases hfl : findFileLayer L f.name with
          | none => exact Or.inl rfl
          | some l =>
            refine Or.inr ⟨l, rfl, ?_⟩
            cases hbl : alookup σ.blobs l.digest with
            | none => rfl
            | some b =>
              exfalso
              rw [readFile_eq hlk hml hfl hbl] at hnf
              exact absurd hnf (by simp)
    · intro hcase
      rcases hcase with hlk | ⟨mdesc, hlk, hrest⟩
      · simp only [readFile, hlk]
      · rcases hrest with hml | ⟨L, hml, hrest⟩
        · simp only [readFile, hlk, hml]
        · rcases hrest with hfl | ⟨l, hfl, hbl⟩
          · simp only [readFile, hlk, hml, hfl]
          · simp only [readFile, hlk, hml, hfl, hbl]
  · intro mdesc L l b hlk hml hfl hbl
    exact readFile_eq hlk hml hfl hbl

/-- Claim C10: whenever `ReadFile` succeeds on a manifest with layers `L`,
the layer it returns sits at the earliest index of `L` whose
`ocifactory.file.title` annotation equals the requested name; every earlier
layer's title differs, so later duplicates are never returned. -/
theorem readFile_returns_earliest_match (σ : Backend) (f : RepoFile)
    (mdesc : Descr) (L : List Descr) (fd : FileDescriptor) (b : Bytes)
    (hlk : alookup σ.tags f.owningTag = some mdesc)
    (hml : manifestLayers σ mdesc = .ok L)
    (hres : readFile σ f = .ok (fd, b)) :
    ∃ j, ∃ hj : j < L.length, fd.file = L.get ⟨j, hj⟩ ∧
      annValue (L.get ⟨j, hj⟩) = f.name ∧
      ∀ k, ∀ hk : k < L.length, k < j →
        annValue (L.get ⟨k, hk⟩) ≠ f.name := by
  cases hfl : findFileLayer L f.name with
  | none =>
    exfalso
    simp only [readFile, hlk, hml, hfl] at hres
    exact Except.noConfusion hres
  | some l =>
    cases hbl : alookup σ.blobs l.digest with
    | none =>
      exfalso
      simp only [readFile, hlk, hml, hfl, hbl] at hres
      exact Except.noConfusion hres
    | some b' =>
      rw [readFile_eq hlk hml hfl hbl] at hres
      injection hres with hres2
      injection hres2 with hfd _
      obtain ⟨j, hj, hget, hval, hfirst⟩ := findFileLayer_first hfl
      refine ⟨j, hj, ?_, ?_, hfirst⟩
      · rw [← hfd, ← hget]
      · rw [← hget, hval]

/-- Witness for C10: in `σ10`, whose manifest holds two layers both titled
`dup.txt`, the returned layer is the one at index 0. -/
theorem readFile_returns_earliest_match_witness :
    ∃ j, ∃ hj : j < ([lDupA, lDupB] : List Descr).length,
      (FileDescriptor.mk mdesc7 lDupA).file = [lDupA, lDupB].get ⟨j, hj⟩ ∧
      annValue ([lDupA, lDupB].get ⟨j, hj⟩) = f10.name ∧
      ∀ k, ∀ hk : k < ([lDupA, lDupB] : List Descr).length, k < j →
        annValue ([lDupA, lDupB].get ⟨k, hk⟩) ≠ f10.name :=
  readFile_returns_earliest_match σ10 f10 mdesc7 [lDupA, lDupB]
    ⟨mdesc7, lDupA⟩ [11] (by decide) (by decide) (by decide)

end Ocifactory
